import Mathlib

/-!
Verification of the gamm pool service (`x/gamm/keeper/pool/service_pool.go`):
a shallow embedding of the pool data model and the `LiquidityPoolTransactor`
operations, and proofs settling the specification's claims about them.

Modelling conventions:
* `sdk.Int` is an arbitrary-precision signed integer, embedded as `ℤ`.
* `sdk.Dec` (the spec's FixedDecimal component, not part of the service file)
  is an 18-fractional-digit fixed-point decimal over a wide integer; it is
  embedded as its integer count of `10 ^ (-18)` units, with all rounding
  truncating toward zero as the spec prescribes.
* Go's `map[string]types.Record` is embedded as an association list together
  with the Go map operations (lookup, insert-or-replace); a missing key
  yields the zero `Record`, whose FixedDecimal fields model as `0`.
* The external collaborators (bank, share ledger) are abstracted by a single
  flag `extOk`: when `false`, the external calls fail and the operation
  aborts with a bank error before any store write; when `true` they succeed.
  The pool-math component (also not part of the service file) is kept fully
  abstract as a structure of function parameters.
* Each operation returns the ordered list of `StorePool` writes it performed,
  the coin list it forwarded to the bank, and the share amounts it minted and
  burned through the share ledger, so that frame and conservation claims can
  be stated against the real data flow.
* The two panic sites reachable from the service (`panic("oh my god")` on an
  empty initial coin list, and the big-integer division-by-zero panic inside
  `Dec.Quo`) are embedded as distinguished error outcomes.
-/

namespace Gamm

/-- Asset denomination (Go `string`). -/
abbrev Denom := String

/-- Modelled from the spec: FixedDecimal (§4.A).  A `Dec` is the integer count
of `10 ^ (-18)` units of an 18-fractional-digit fixed-point decimal. -/
abbrev Dec := ℤ

/-- Truncating (toward zero) integer division — the rounding mode the spec
fixes for all FixedDecimal operations. -/
def tdivZ (a b : ℤ) : ℤ := Int.tdiv a b

/-- The `Dec` representation of `1`. -/
def oneDec : Dec := 10 ^ 18

/-- Modelled from the spec: exact conversion `Int → Dec` (`sdk.Int.ToDec`). -/
def intToDec (n : ℤ) : Dec := n * oneDec

/-- Modelled from the spec: `Dec` multiplication, truncated to 18 fractional
digits (`sdk.Dec.Mul`). -/
def decMul (a b : Dec) : Dec := tdivZ (a * b) oneDec

/-- Modelled from the spec: truncating `Dec` division (`sdk.Dec.Quo`); the
zero-divisor case panics and the callers below surface it explicitly. -/
def decQuo (a b : Dec) : Dec := tdivZ (a * oneDec) b

/-- Modelled from the spec: `Dec → Int` truncation (`sdk.Dec.TruncateInt`). -/
def decTruncInt (a : Dec) : ℤ := tdivZ a oneDec

/-- Per-asset state inside a pool (`types.Record`). -/
structure Record where
  denormalizedWeight : Dec
  balance : ℤ
deriving DecidableEq, Repr

/-- Share-token descriptor embedded in a pool (`types.LP`). -/
structure LP where
  denom : Denom
  description : String
  totalSupply : ℤ
deriving DecidableEq, Repr

/-- The Go `map[string]types.Record`, embedded as an association list. -/
abbrev Records := List (Denom × Record)

/-- A liquidity pool (`types.Pool`). -/
structure Pool where
  id : ℕ
  swapFee : Dec
  token : LP
  totalWeight : Dec
  records : Records
deriving DecidableEq, Repr

/-- `types.LPTokenInfo`. -/
structure LPTokenInfo where
  denom : String
  description : String
deriving DecidableEq, Repr

/-- `types.BindTokenInfo`. -/
structure BindTokenInfo where
  denom : Denom
  weight : Dec
  amount : ℤ
deriving DecidableEq, Repr

/-- `types.MaxAmountIn`. -/
structure MaxAmountIn where
  denom : Denom
  maxAmount : ℤ
deriving DecidableEq, Repr

/-- `types.MinAmountOut`. -/
structure MinAmountOut where
  denom : Denom
  minAmount : ℤ
deriving DecidableEq, Repr

/-- `sdk.Coin`: a denomination together with an amount. -/
abbrev Coin := Denom × ℤ

/-- `sdk.Coins`. -/
abbrev Coins := List Coin

/-- The key list of a records mapping. -/
def keys (rs : Records) : List Denom := rs.map Prod.fst

/-- Go map lookup `pool.Records[d]` (the found value, if any). -/
def recGet : Records → Denom → Option Record
  | [], _ => none
  | p :: rs, d => if p.1 = d then some p.2 else recGet rs d

/-- The zero `types.Record`, produced by a Go map miss; its FixedDecimal
fields model as `0`. -/
def zeroRecord : Record := ⟨0, 0⟩

/-- Go map lookup returning the zero `Record` on a miss. -/
def recGetD (rs : Records) (d : Denom) : Record := (recGet rs d).getD zeroRecord

/-- Replace every entry stored under key `d`. -/
def replaceRec : Records → Denom → Record → Records
  | [], _, _ => []
  | p :: rs, d, r => (if p.1 = d then (d, r) else p) :: replaceRec rs d r

/-- Go map assignment `pool.Records[d] = r`: replace when present, append
when absent. -/
def recSet (rs : Records) (d : Denom) (r : Record) : Records :=
  if (recGet rs d).isSome then replaceRec rs d r else rs ++ [(d, r)]

/-- The per-coin balance-update loops of the internal `joinPool` and
`exitPool` helpers: for each coin, read the record, combine its balance with
the coin amount through `f`, and write it back. -/
def updCoins (f : ℤ → ℤ → ℤ) : Records → Coins → Records
  | rs, [] => rs
  | rs, c :: cs =>
      updCoins f (recSet rs c.1 ⟨(recGetD rs c.1).denormalizedWeight,
        f (recGetD rs c.1).balance c.2⟩) cs

/-- The records-building loop of `CreatePool`: later entries with the same
denomination overwrite earlier ones, as in the Go map. -/
def buildRecords : Records → List BindTokenInfo → Records
  | rs, [] => rs
  | rs, info :: rest => buildRecords (recSet rs info.denom ⟨info.weight, info.amount⟩) rest

/-- Insert a coin into a denom-sorted coin list. -/
def insertCoin (c : Coin) : Coins → Coins
  | [] => [c]
  | c' :: cs => if compare c.1 c'.1 = Ordering.lt then c :: c' :: cs else c' :: insertCoin c cs

/-- `sdk.Coins.Sort`: sort a coin list by denomination. -/
def sortCoins : Coins → Coins
  | [] => []
  | c :: cs => insertCoin c (sortCoins cs)

/-- The error kinds surfaced by the pool service, plus the two panic sites
embedded as distinguished outcomes: `panicEmptyCoins` is `CreatePool`'s
`panic("oh my god")` on an empty initial coin list, and `panicDivZero` is the
big-integer division-by-zero panic raised inside `Dec.Quo`. -/
inductive Err where
  | invalidRequest
  | notBound
  | mathApprox
  | limitExceed
  | limitIn
  | limitOut
  | maxInRatio
  | maxOutRatio
  | notFound
  | bankError
  | panicEmptyCoins
  | panicDivZero
deriving DecidableEq, Repr

/-- The observable outcome of one successful pool-service operation:
the `StorePool` writes in order, the coin list forwarded to the bank, the
share amounts minted and burned through the share ledger, and the integer
the Go function returns. -/
structure RunResult where
  writes : List Pool
  coins : Coins
  minted : ℤ
  burned : ℤ
  ret : ℤ
deriving DecidableEq, Repr

/-- Modelled from the spec: `maxInRatio = 1/2` (§3), a `Dec` constant defined
outside the service file. -/
def maxInRatio : Dec := tdivZ oneDec 2

/-- Modelled from the spec: `maxOutRatio = 1/3` (§3), a `Dec` constant defined
outside the service file, truncated to the 18-digit domain. -/
def maxOutRatio : Dec := tdivZ oneDec 3

/-- Modelled from the spec: the PoolMath component (§4.B).  The four
single-asset formulas live outside the service file; they are kept fully
abstract as `Dec`-valued functions of `(balance, weight, totalSupply,
totalWeight, amount, swapFee)`. -/
structure PoolMath where
  calcPoolOutGivenSingleIn : Dec → Dec → Dec → Dec → Dec → Dec → Dec
  calcSingleInGivenPoolOut : Dec → Dec → Dec → Dec → Dec → Dec → Dec
  calcSingleOutGivenPoolIn : Dec → Dec → Dec → Dec → Dec → Dec → Dec
  calcPoolInGivenSingleOut : Dec → Dec → Dec → Dec → Dec → Dec → Dec

/-- `sdk.NewIntWithDecimal(100, 6)`: the initial share supply minted by
`CreatePool`. -/
def INITIAL_SHARE_SUPPLY : ℤ := 100 * 10 ^ 6

/-- The internal `joinPool` helper.  `extOk` abstracts the three external
calls (`mintPoolShare`, `pushPoolShare`, bank transfer), which either all
succeed or abort the operation with a bank error before any state is saved.
On success it adds `swapAmount` to the total supply, adds each coin amount to
the matching record balance, and performs its single `StorePool` write. -/
def joinPool (extOk : Bool) (pool : Pool) (swapTargets : Coins) (swapAmount : ℤ) :
    Except Err RunResult :=
  if extOk then
    .ok { writes := [{ pool with
            token := { pool.token with totalSupply := pool.token.totalSupply + swapAmount },
            records := updCoins (fun b a => b + a) pool.records swapTargets }],
          coins := swapTargets, minted := swapAmount, burned := 0, ret := 0 }
  else .error .bankError

/-- The internal `exitPool` helper: `pullPoolShare`, `burnPoolShare` and the
bank transfer (abstracted by `extOk`), then subtract `swapTarget` from the
total supply, subtract each coin amount from the matching record balance, and
perform the single `StorePool` write. -/
def exitPool (extOk : Bool) (pool : Pool) (swapTarget : ℤ) (swapAmounts : Coins) :
    Except Err RunResult :=
  if extOk then
    .ok { writes := [{ pool with
            token := { pool.token with totalSupply := pool.token.totalSupply - swapTarget },
            records := updCoins (fun b a => b - a) pool.records swapAmounts }],
          coins := swapAmounts, minted := 0, burned := swapTarget, ret := 0 }
  else .error .bankError

/-- `CreatePool`: validate the binding count, build the records mapping,
derive the share denomination, assemble the pool with zero supply, persist it,
form the sorted initial coin list (panicking when empty), and invoke the
internal `joinPool` with the initial share supply.  The pool id allocated by
`GetNextPoolNumber` is taken as the parameter `poolId`. -/
def CreatePool (extOk : Bool) (poolId : ℕ) (swapFee : Dec)
    (lpTokenIn : LPTokenInfo) (bindTokens : List BindTokenInfo) : Except Err RunResult :=
  if bindTokens.length < 2 then .error .invalidRequest
  else if 8 < bindTokens.length then .error .invalidRequest
  else
    let records := buildRecords [] bindTokens
    let lpDenom := if lpTokenIn.denom = "" then "osmosis/pool/" ++ toString poolId
                   else "osmosis/custom/" ++ lpTokenIn.denom
    let totalWeight := (records.map (fun p => p.2.denormalizedWeight)).sum
    let pool : Pool :=
      { id := poolId, swapFee := swapFee,
        token := { denom := lpDenom, description := lpTokenIn.description, totalSupply := 0 },
        totalWeight := totalWeight, records := records }
    let coinsRaw : Coins := records.map (fun p => (p.1, p.2.balance))
    if coinsRaw = [] then .error .panicEmptyCoins
    else
      match joinPool extOk pool (sortCoins coinsRaw) INITIAL_SHARE_SUPPLY with
      | .error e => .error e
      | .ok res => .ok { res with writes := pool :: res.writes, ret := (poolId : ℤ) }

/-- The per-entry loop of `JoinPool`: look the record up (a miss yields the
zero record), compute `tokenAmountIn`, check boundness, non-zeroness and the
per-entry maximum in the source's order, and collect the swap targets. -/
def joinTargets (poolRatio : Dec) (rs : Records) : List MaxAmountIn → Except Err Coins
  | [] => .ok []
  | m :: rest =>
      let record := recGetD rs m.denom
      let tokenAmountIn := decTruncInt (decMul poolRatio (intToDec record.balance))
      if (recGet rs m.denom).isNone then .error .invalidRequest
      else if tokenAmountIn = 0 then .error .mathApprox
      else if m.maxAmount < tokenAmountIn then .error .limitExceed
      else match joinTargets poolRatio rs rest with
        | .error e => .error e
        | .ok cs => .ok ((m.denom, tokenAmountIn) :: cs)

/-- `JoinPool` (proportional join): compute the pool ratio (its `Dec.Quo`
panics when the total supply is zero), reject a zero ratio, reject duplicate
denominations and a length different from the record count, collect the swap
targets, and delegate to the internal `joinPool`. -/
def JoinPool (extOk : Bool) (pool : Pool) (poolAmountOut : ℤ)
    (maxAmountsIn : List MaxAmountIn) : Except Err RunResult :=
  if intToDec pool.token.totalSupply = 0 then .error .panicDivZero
  else
    let poolRatio := decQuo (intToDec poolAmountOut) (intToDec pool.token.totalSupply)
    if poolRatio = 0 then .error .mathApprox
    else if ¬ (maxAmountsIn.map (fun m => m.denom)).Nodup then .error .invalidRequest
    else if pool.records.length ≠ maxAmountsIn.length then .error .invalidRequest
    else match joinTargets poolRatio pool.records maxAmountsIn with
      | .error e => .error e
      | .ok ts => joinPool extOk pool ts poolAmountOut

/-- `JoinPoolWithExternAmountIn`: single-asset join with a given deposit. -/
def JoinPoolWithExternAmountIn (pm : PoolMath) (extOk : Bool) (pool : Pool)
    (tokenIn : Denom) (tokenAmountIn minPoolAmountOut : ℤ) : Except Err RunResult :=
  match recGet pool.records tokenIn with
  | none => .error .notBound
  | some record =>
      if decMul (intToDec record.balance) maxInRatio < intToDec tokenAmountIn then
        .error .maxInRatio
      else
        let poolAmountOut := decTruncInt (pm.calcPoolOutGivenSingleIn
          (intToDec record.balance) record.denormalizedWeight
          (intToDec pool.token.totalSupply) pool.totalWeight
          (intToDec tokenAmountIn) pool.swapFee)
        if poolAmountOut < minPoolAmountOut then .error .limitOut
        else match joinPool extOk pool [(tokenIn, tokenAmountIn)] poolAmountOut with
          | .error e => .error e
          | .ok res => .ok { res with ret := poolAmountOut }

/-- `JoinPoolWithPoolAmountOut`: single-asset join minting a given share
amount. -/
def JoinPoolWithPoolAmountOut (pm : PoolMath) (extOk : Bool) (pool : Pool)
    (tokenIn : Denom) (poolAmountOut maxAmountIn : ℤ) : Except Err RunResult :=
  match recGet pool.records tokenIn with
  | none => .error .notBound
  | some record =>
      let tokenAmountIn := decTruncInt (pm.calcSingleInGivenPoolOut
        (intToDec record.balance) record.denormalizedWeight
        (intToDec pool.token.totalSupply) pool.totalWeight
        (intToDec poolAmountOut) pool.swapFee)
      if tokenAmountIn = 0 then .error .mathApprox
      else if maxAmountIn < tokenAmountIn then .error .limitIn
      else if decMul (intToDec record.balance) maxInRatio < intToDec tokenAmountIn then
        .error .maxInRatio
      else match joinPool extOk pool [(tokenIn, tokenAmountIn)] poolAmountOut with
        | .error e => .error e
        | .ok res => .ok { res with ret := poolAmountOut }

/-- The per-entry loop of `ExitPool`: look the record up, compute
`tokenAmountOut`, check boundness, non-zeroness and the per-entry minimum in
the source's order, then decrement the record balance in place (the first of
the two decrements) before recursing over the updated mapping. -/
def exitAmounts (poolRatio : Dec) : Records → List MinAmountOut → Except Err (Records × Coins)
  | rs, [] => .ok (rs, [])
  | rs, m :: rest =>
      let record := recGetD rs m.denom
      let tokenAmountOut := decTruncInt (decMul poolRatio (intToDec record.balance))
      if (recGet rs m.denom).isNone then .error .invalidRequest
      else if tokenAmountOut = 0 then .error .mathApprox
      else if tokenAmountOut < m.minAmount then .error .limitExceed
      else match exitAmounts poolRatio
          (recSet rs m.denom ⟨record.denormalizedWeight, record.balance - tokenAmountOut⟩)
          rest with
        | .error e => .error e
        | .ok (rs', cs) => .ok (rs', (m.denom, tokenAmountOut) :: cs)

/-- `ExitPool` (proportional exit): compute the pool ratio (its `Dec.Quo`
panics when the total supply is zero), reject a zero ratio, duplicate
denominations and a mismatched length, run the per-entry loop (which already
decrements the shared records mapping once), and delegate to the internal
`exitPool`, which decrements the same mapping again. -/
def ExitPool (extOk : Bool) (pool : Pool) (poolAmountIn : ℤ)
    (minAmountsOut : List MinAmountOut) : Except Err RunResult :=
  if intToDec pool.token.totalSupply = 0 then .error .panicDivZero
  else
    let poolRatio := decQuo (intToDec poolAmountIn) (intToDec pool.token.totalSupply)
    if poolRatio = 0 then .error .mathApprox
    else if ¬ (minAmountsOut.map (fun m => m.denom)).Nodup then .error .invalidRequest
    else if pool.records.length ≠ minAmountsOut.length then .error .invalidRequest
    else match exitAmounts poolRatio pool.records minAmountsOut with
      | .error e => .error e
      | .ok (rs', cs) => exitPool extOk { pool with records := rs' } poolAmountIn cs

/-- `ExitPoolWithPoolAmountIn`: single-asset exit burning a given share
amount. -/
def ExitPoolWithPoolAmountIn (pm : PoolMath) (extOk : Bool) (pool : Pool)
    (tokenOut : Denom) (poolAmountIn minAmountOut : ℤ) : Except Err RunResult :=
  match recGet pool.records tokenOut with
  | none => .error .notBound
  | some record =>
      let tokenAmountOut := decTruncInt (pm.calcSingleOutGivenPoolIn
        (intToDec record.balance) record.denormalizedWeight
        (intToDec pool.token.totalSupply) pool.totalWeight
        (intToDec poolAmountIn) pool.swapFee)
      if tokenAmountOut < minAmountOut then .error .limitOut
      else if decMul (intToDec record.balance) maxOutRatio < intToDec tokenAmountOut then
        .error .maxOutRatio
      else match exitPool extOk pool poolAmountIn [(tokenOut, tokenAmountOut)] with
        | .error e => .error e
        | .ok res => .ok { res with ret := tokenAmountOut }

/-- `ExitPoolWithExternAmountOut`: single-asset exit releasing a given
amount. -/
def ExitPoolWithExternAmountOut (pm : PoolMath) (extOk : Bool) (pool : Pool)
    (tokenOut : Denom) (tokenAmountOut maxPoolAmountIn : ℤ) : Except Err RunResult :=
  match recGet pool.records tokenOut with
  | none => .error .notBound
  | some record =>
      if decMul (intToDec record.balance) maxOutRatio < intToDec tokenAmountOut then
        .error .maxOutRatio
      else
        let poolAmountIn := decTruncInt (pm.calcPoolInGivenSingleOut
          (intToDec record.balance) record.denormalizedWeight
          (intToDec pool.token.totalSupply) pool.totalWeight
          (intToDec tokenAmountOut) pool.swapFee)
        if poolAmountIn = 0 then .error .mathApprox
        else if maxPoolAmountIn < poolAmountIn then .error .limitIn
        else match exitPool extOk pool poolAmountIn [(tokenOut, tokenAmountOut)] with
          | .error e => .error e
          | .ok res => .ok { res with ret := poolAmountIn }

/-- The six pool-mutating operations that fetch an existing pool, as data. -/
inductive Op where
  | join (poolAmountOut : ℤ) (maxAmountsIn : List MaxAmountIn)
  | joinExternAmountIn (tokenIn : Denom) (tokenAmountIn minPoolAmountOut : ℤ)
  | joinPoolAmountOut (tokenIn : Denom) (poolAmountOut maxAmountIn : ℤ)
  | exit (poolAmountIn : ℤ) (minAmountsOut : List MinAmountOut)
  | exitPoolAmountIn (tokenOut : Denom) (poolAmountIn minAmountOut : ℤ)
  | exitExternAmountOut (tokenOut : Denom) (tokenAmountOut maxPoolAmountIn : ℤ)
deriving DecidableEq, Repr

/-- Run one fetch-based operation on a fetched pool. -/
def runOp (pm : PoolMath) (extOk : Bool) (pool : Pool) : Op → Except Err RunResult
  | .join out maxs => JoinPool extOk pool out maxs
  | .joinExternAmountIn tIn amt minOut =>
      JoinPoolWithExternAmountIn pm extOk pool tIn amt minOut
  | .joinPoolAmountOut tIn out maxIn =>
      JoinPoolWithPoolAmountOut pm extOk pool tIn out maxIn
  | .exit amtIn mins => ExitPool extOk pool amtIn mins
  | .exitPoolAmountIn tOut amtIn minOut =>
      ExitPoolWithPoolAmountIn pm extOk pool tOut amtIn minOut
  | .exitExternAmountOut tOut amt maxIn =>
      ExitPoolWithExternAmountOut pm extOk pool tOut amt maxIn

/-- The pool a successful operation leaves committed in the store: its last
`StorePool` write. -/
def committed (res : RunResult) : Option Pool := res.writes.getLast?

/-- Pool states reachable through the pool service's own operations: a state
committed by a successful `CreatePool`, or a state committed by a successful
fetch-based operation run on a reachable state. -/
inductive Reachable : Pool → Prop where
  | created (extOk : Bool) (poolId : ℕ) (swapFee : Dec) (lpTokenIn : LPTokenInfo)
      (bindTokens : List BindTokenInfo) (res : RunResult) (p : Pool) :
      CreatePool extOk poolId swapFee lpTokenIn bindTokens = .ok res →
      committed res = some p → Reachable p
  | stepped (pm : PoolMath) (extOk : Bool) (pool : Pool) (op : Op)
      (res : RunResult) (p : Pool) : Reachable pool →
      runOp pm extOk pool op = .ok res → committed res = some p → Reachable p

/-- The denormalized weight stored under a denomination, if any. -/
def weightAt (rs : Records) (e : Denom) : Option Dec :=
  (recGet rs e).map (fun r => r.denormalizedWeight)

/-- A constant instantiation of the abstract pool-math component, used to run
the operations on concrete inputs. -/
def pmConst : PoolMath :=
  ⟨fun _ _ _ _ _ _ => intToDec 7, fun _ _ _ _ _ _ => intToDec 7,
   fun _ _ _ _ _ _ => intToDec 7, fun _ _ _ _ _ _ => intToDec 7⟩

/-- A pool-math instantiation returning a large constant, used to exercise the
ratio-cap branches on computed amounts. -/
def pmBig : PoolMath :=
  ⟨fun _ _ _ _ _ _ => intToDec 1000, fun _ _ _ _ _ _ => intToDec 1000,
   fun _ _ _ _ _ _ => intToDec 1000, fun _ _ _ _ _ _ => intToDec 1000⟩

/-- A two-asset binding list: 100 `a` and 100 `b`, both of weight one. -/
def bindsAB : List BindTokenInfo := [⟨"a", 10 ^ 18, 100⟩, ⟨"b", 10 ^ 18, 100⟩]

/-- The pool `CreatePool` assembles from `bindsAB` and persists first. -/
def poolAB0 : Pool :=
  ⟨1, 0, ⟨"osmosis/pool/1", "d", 0⟩, 2 * 10 ^ 18,
   [("a", ⟨10 ^ 18, 100⟩), ("b", ⟨10 ^ 18, 100⟩)]⟩

/-- The pool `CreatePool` on `bindsAB` leaves committed: the internal
`joinPool` adds the initial coin amounts onto the already-recorded balances
and mints the initial share supply. -/
def poolAB : Pool :=
  ⟨1, 0, ⟨"osmosis/pool/1", "d", 10 ^ 8⟩, 2 * 10 ^ 18,
   [("a", ⟨10 ^ 18, 200⟩), ("b", ⟨10 ^ 18, 200⟩)]⟩

/-- The full outcome of `CreatePool` on `bindsAB`. -/
def cresAB : RunResult := ⟨[poolAB0, poolAB], [("a", 100), ("b", 100)], 10 ^ 8, 0, 1⟩

/-- `poolAB` after the proportional `ExitPool` burning the whole supply: the
double decrement drives both balances to `-200`. -/
def poolABexited : Pool :=
  ⟨1, 0, ⟨"osmosis/pool/1", "d", 0⟩, 2 * 10 ^ 18,
   [("a", ⟨10 ^ 18, -200⟩), ("b", ⟨10 ^ 18, -200⟩)]⟩

/-- The outcome of the full proportional exit from `poolAB`. -/
def eresFull : RunResult := ⟨[poolABexited], [("a", 200), ("b", 200)], 0, 10 ^ 8, 0⟩

/-- `poolAB` after a proportional `ExitPool` of `10 ^ 7` shares: each
`tokenAmountOut` is 20, yet the stored balances drop by 40. -/
def poolABafterExit : Pool :=
  ⟨1, 0, ⟨"osmosis/pool/1", "d", 9 * 10 ^ 7⟩, 2 * 10 ^ 18,
   [("a", ⟨10 ^ 18, 160⟩), ("b", ⟨10 ^ 18, 160⟩)]⟩

/-- The outcome of the proportional exit of `10 ^ 7` shares from `poolAB`. -/
def c1res : RunResult := ⟨[poolABafterExit], [("a", 20), ("b", 20)], 0, 10 ^ 7, 0⟩

/-- `poolAB` after a proportional `JoinPool` of `10 ^ 7` shares. -/
def poolABjoined : Pool :=
  ⟨1, 0, ⟨"osmosis/pool/1", "d", 11 * 10 ^ 7⟩, 2 * 10 ^ 18,
   [("a", ⟨10 ^ 18, 220⟩), ("b", ⟨10 ^ 18, 220⟩)]⟩

/-- The outcome of the proportional join of `10 ^ 7` shares into `poolAB`. -/
def jresAB : RunResult := ⟨[poolABjoined], [("a", 20), ("b", 20)], 10 ^ 7, 0, 0⟩

/-- `poolAB` after `JoinPoolWithExternAmountIn` of 50 `a` under `pmConst`. -/
def poolABext : Pool :=
  ⟨1, 0, ⟨"osmosis/pool/1", "d", 100000007⟩, 2 * 10 ^ 18,
   [("a", ⟨10 ^ 18, 250⟩), ("b", ⟨10 ^ 18, 200⟩)]⟩

/-- The outcome of `JoinPoolWithExternAmountIn` of 50 `a` under `pmConst`. -/
def jextRes : RunResult := ⟨[poolABext], [("a", 50)], 7, 0, 7⟩

/-- `poolAB` after `JoinPoolWithPoolAmountOut` of 3 shares under `pmConst`. -/
def poolABjp2 : Pool :=
  ⟨1, 0, ⟨"osmosis/pool/1", "d", 100000003⟩, 2 * 10 ^ 18,
   [("a", ⟨10 ^ 18, 207⟩), ("b", ⟨10 ^ 18, 200⟩)]⟩

/-- The outcome of `JoinPoolWithPoolAmountOut` of 3 shares under `pmConst`. -/
def jp2Res : RunResult := ⟨[poolABjp2], [("a", 7)], 3, 0, 3⟩

/-- `poolAB` after `ExitPoolWithPoolAmountIn` of 5 shares under `pmConst`. -/
def poolABep1 : Pool :=
  ⟨1, 0, ⟨"osmosis/pool/1", "d", 99999995⟩, 2 * 10 ^ 18,
   [("a", ⟨10 ^ 18, 193⟩), ("b", ⟨10 ^ 18, 200⟩)]⟩

/-- The outcome of `ExitPoolWithPoolAmountIn` of 5 shares under `pmConst`. -/
def ep1Res : RunResult := ⟨[poolABep1], [("a", 7)], 0, 5, 7⟩

/-- `poolAB` after `ExitPoolWithExternAmountOut` of 60 `a` under `pmConst`. -/
def poolABep2 : Pool :=
  ⟨1, 0, ⟨"osmosis/pool/1", "d", 99999993⟩, 2 * 10 ^ 18,
   [("a", ⟨10 ^ 18, 140⟩), ("b", ⟨10 ^ 18, 200⟩)]⟩

/-- The outcome of `ExitPoolWithExternAmountOut` of 60 `a` under `pmConst`. -/
def ep2Res : RunResult := ⟨[poolABep2], [("a", 60)], 0, 7, 7⟩

/-- A binding list whose two entries share the denomination `a`. -/
def c4binds : List BindTokenInfo := [⟨"a", 10 ^ 18, 100⟩, ⟨"a", 2 * 10 ^ 18, 50⟩]

/-- The single-record pool `CreatePool` assembles from `c4binds` (the second
binding overwrote the first in the mapping) and persists first. -/
def c4pool0 : Pool :=
  ⟨1, 0, ⟨"osmosis/pool/1", "d", 0⟩, 2 * 10 ^ 18, [("a", ⟨2 * 10 ^ 18, 50⟩)]⟩

/-- The single-record pool `CreatePool` on `c4binds` leaves committed. -/
def c4pool1 : Pool :=
  ⟨1, 0, ⟨"osmosis/pool/1", "d", 10 ^ 8⟩, 2 * 10 ^ 18, [("a", ⟨2 * 10 ^ 18, 100⟩)]⟩

/-- The full outcome of `CreatePool` on `c4binds`. -/
def c4res : RunResult := ⟨[c4pool0, c4pool1], [("a", 50)], 10 ^ 8, 0, 1⟩

theorem recGet_eq_none_iff (rs : Records) (d : Denom) : recGet rs d = none ↔ d ∉ keys rs := by
  induction rs with
  | nil => simp [recGet, keys]
  | cons p rest ih =>
      by_cases h : p.1 = d
      · simp [recGet, keys, h]
      · simp [recGet, keys, h, ih, Ne.symm h]

theorem recGet_isSome_iff (rs : Records) (d : Denom) : (recGet rs d).isSome ↔ d ∈ keys rs := by
  induction rs with
  | nil => simp [recGet, keys]
  | cons p rest ih =>
      by_cases h : p.1 = d
      · simp [recGet, keys, h]
      · simp [recGet, keys, h, ih, Ne.symm h]

theorem recGet_replaceRec_self (rs : Records) (d : Denom) (r : Record)
    (h : (recGet rs d).isSome) : recGet (replaceRec rs d r) d = some r := by
  induction rs with
  | nil => simp [recGet] at h
  | cons p rest ih =>
      by_cases hp : p.1 = d
      · simp [replaceRec, recGet, hp]
      · simp only [recGet, hp, if_false] at h
        simp [replaceRec, recGet, hp, ih h]

theorem recGet_append_single_self (rs : Records) (d : Denom) (r : Record)
    (h : recGet rs d = none) : recGet (rs ++ [(d, r)]) d = some r := by
  induction rs with
  | nil => simp [recGet]
  | cons p rest ih =>
      by_cases hp : p.1 = d
      · simp [recGet, hp] at h
      · simp only [recGet, hp, if_false] at h
        simp [recGet, hp, ih h]

theorem recGet_recSet_self (rs : Records) (d : Denom) (r : Record) :
    recGet (recSet rs d r) d = some r := by
  unfold recSet
  by_cases h : (recGet rs d).isSome
  · simp [h, recGet_replaceRec_self rs d r h]
  · rw [Option.not_isSome_iff_eq_none] at h
    simp [h, recGet_append_single_self rs d r h]

theorem recGet_replaceRec_ne (rs : Records) (d : Denom) (r : Record) {e : Denom}
    (h : e ≠ d) : recGet (replaceRec rs d r) e = recGet rs e := by
  induction rs with
  | nil => simp [replaceRec]
  | cons p rest ih =>
      by_cases hp : p.1 = d
      · simp [replaceRec, recGet, hp, Ne.symm h, ih]
      · simp [replaceRec, recGet, hp, ih]

theorem recGet_append_single_ne (rs : Records) (d : Denom) (r : Record) {e : Denom}
    (h : e ≠ d) : recGet (rs ++ [(d, r)]) e = recGet rs e := by
  induction rs with
  | nil => simp [recGet, Ne.symm h]
  | cons p rest ih =>
      by_cases hp : p.1 = e
      · simp [recGet, hp]
      · simp [recGet, hp, ih]

theorem recGet_recSet_ne (rs : Records) (d : Denom) (r : Record) {e : Denom}
    (h : e ≠ d) : recGet (recSet rs d r) e = recGet rs e := by
  unfold recSet
  by_cases hs : (recGet rs d).isSome
  · simp [hs, recGet_replaceRec_ne rs d r h]
  · simp [hs, recGet_append_single_ne rs d r h]

theorem recGet_recSet_isSome (rs : Records) (d : Denom) (r : Record) (e : Denom)
    (h : (recGet rs e).isSome) : (recGet (recSet rs d r) e).isSome := by
  by_cases he : e = d
  · subst he
    rw [recGet_recSet_self]
    rfl
  · rw [recGet_recSet_ne rs d r he]
    exact h

theorem length_replaceRec (rs : Records) (d : Denom) (r : Record) :
    (replaceRec rs d r).length = rs.length := by
  induction rs with
  | nil => rfl
  | cons p rest ih => simp [replaceRec, ih]

theorem length_recSet_present (rs : Records) (d : Denom) (r : Record)
    (h : (recGet rs d).isSome) : (recSet rs d r).length = rs.length := by
  simp [recSet, h, length_replaceRec]

theorem length_recSet_absent (rs : Records) (d : Denom) (r : Record)
    (h : recGet rs d = none) : (recSet rs d r).length = rs.length + 1 := by
  simp [recSet, h]

theorem length_recSet_le (rs : Records) (d : Denom) (r : Record) :
    rs.length ≤ (recSet rs d r).length ∧ (recSet rs d r).length ≤ rs.length + 1 := by
  by_cases h : (recGet rs d).isSome
  · rw [length_recSet_present rs d r h]
    omega
  · rw [Option.not_isSome_iff_eq_none] at h
    rw [length_recSet_absent rs d r h]
    omega

theorem keys_replaceRec (rs : Records) (d : Denom) (r : Record) :
    keys (replaceRec rs d r) = keys rs := by
  induction rs with
  | nil => rfl
  | cons p rest ih =>
      simp only [keys, List.map_cons] at ih ⊢
      by_cases hp : p.1 = d
      · simp [replaceRec, hp, ih]
      · simp [replaceRec, hp, ih]

theorem keys_recSet_present (rs : Records) (d : Denom) (r : Record)
    (h : (recGet rs d).isSome) : keys (recSet rs d r) = keys rs := by
  simp [recSet, h, keys_replaceRec]

theorem keys_recSet_absent (rs : Records) (d : Denom) (r : Record)
    (h : recGet rs d = none) : keys (recSet rs d r) = keys rs ++ [d] := by
  simp [recSet, h, keys]

theorem weightAt_recSet (rs : Records) (d : Denom) {r0 : Record}
    (h : recGet rs d = some r0) (b : ℤ) (e : Denom) :
    weightAt (recSet rs d ⟨r0.denormalizedWeight, b⟩) e = weightAt rs e := by
  by_cases he : e = d
  · subst he
    simp [weightAt, recGet_recSet_self, h]
  · simp [weightAt, recGet_recSet_ne rs d _ he]

theorem recGetD_eq (rs : Records) (d : Denom) {r : Record} (h : recGet rs d = some r) :
    recGetD rs d = r := by
  simp [recGetD, h]

theorem updCoins_weightAt (f : ℤ → ℤ → ℤ) (cs : Coins) (rs : Records)
    (hb : ∀ c ∈ cs, (recGet rs c.1).isSome) (e : Denom) :
    weightAt (updCoins f rs cs) e = weightAt rs e := by
  induction cs generalizing rs with
  | nil => rfl
  | cons c rest ih =>
      have hc : (recGet rs c.1).isSome := hb c (List.mem_cons_self c rest)
      rcases Option.isSome_iff_exists.mp hc with ⟨r0, hr0⟩
      have hd : recGetD rs c.1 = r0 := recGetD_eq rs c.1 hr0
      simp only [updCoins, hd]
      rw [ih _ fun c' hc' => recGet_recSet_isSome rs c.1 _ c'.1
        (hb c' (List.mem_cons_of_mem c hc'))]
      exact weightAt_recSet rs c.1 hr0 (f r0.balance c.2) e

theorem updCoins_unlisted (f : ℤ → ℤ → ℤ) (cs : Coins) (rs : Records) (d : Denom)
    (hd : d ∉ cs.map Prod.fst) : recGet (updCoins f rs cs) d = recGet rs d := by
  induction cs generalizing rs with
  | nil => rfl
  | cons c rest ih =>
      simp only [List.map_cons, List.mem_cons, not_or] at hd
      simp only [updCoins]
      rw [ih _ hd.2, recGet_recSet_ne rs c.1 _ hd.1]

theorem updCoins_length (f : ℤ → ℤ → ℤ) (cs : Coins) (rs : Records)
    (hb : ∀ c ∈ cs, (recGet rs c.1).isSome) :
    (updCoins f rs cs).length = rs.length := by
  induction cs generalizing rs with
  | nil => rfl
  | cons c rest ih =>
      have hc : (recGet rs c.1).isSome := hb c (List.mem_cons_self c rest)
      simp only [updCoins]
      rw [ih _ fun c' hc' => recGet_recSet_isSome rs c.1 _ c'.1
        (hb c' (List.mem_cons_of_mem c hc'))]
      exact length_recSet_present rs c.1 _ hc

theorem mem_insertCoin (c x : Coin) (cs : Coins) :
    x ∈ insertCoin c cs ↔ x = c ∨ x ∈ cs := by
  induction cs with
  | nil => simp [insertCoin]
  | cons c' rest ih =>
      by_cases h : compare c.1 c'.1 = Ordering.lt
      · simp [insertCoin, h]
      · simp only [insertCoin, h, if_false, List.mem_cons, ih]
        tauto

theorem mem_sortCoins (x : Coin) (cs : Coins) : x ∈ sortCoins cs ↔ x ∈ cs := by
  induction cs with
  | nil => simp [sortCoins]
  | cons c rest ih => simp [sortCoins, mem_insertCoin, ih]

theorem length_insertCoin (c : Coin) (cs : Coins) :
    (insertCoin c cs).length = cs.length + 1 := by
  induction cs with
  | nil => rfl
  | cons c' rest ih =>
      by_cases h : compare c.1 c'.1 = Ordering.lt
      · simp [insertCoin, h]
      · simp [insertCoin, h, ih]

theorem length_sortCoins (cs : Coins) : (sortCoins cs).length = cs.length := by
  induction cs with
  | nil => rfl
  | cons c rest ih => simp [sortCoins, length_insertCoin, ih]

theorem buildRecords_length_le (binds : List BindTokenInfo) (rs : Records) :
    (buildRecords rs binds).length ≤ rs.length + binds.length := by
  induction binds generalizing rs with
  | nil => simp [buildRecords]
  | cons b rest ih =>
      simp only [buildRecords, List.length_cons]
      calc (buildRecords (recSet rs b.denom ⟨b.weight, b.amount⟩) rest).length
          ≤ (recSet rs b.denom ⟨b.weight, b.amount⟩).length + rest.length := ih _
        _ ≤ rs.length + 1 + rest.length := by
            have := (length_recSet_le rs b.denom ⟨b.weight, b.amount⟩).2
            omega
        _ = rs.length + (rest.length + 1) := by omega

theorem buildRecords_length_ge (binds : List BindTokenInfo) (rs : Records) :
    rs.length ≤ (buildRecords rs binds).length := by
  induction binds generalizing rs with
  | nil => simp [buildRecords]
  | cons b rest ih =>
      simp only [buildRecords]
      calc rs.length ≤ (recSet rs b.denom ⟨b.weight, b.amount⟩).length :=
            (length_recSet_le rs b.denom ⟨b.weight, b.amount⟩).1
        _ ≤ _ := ih _

theorem buildRecords_length_nodup (binds : List BindTokenInfo) (rs : Records)
    (hn : (binds.map (fun b => b.denom)).Nodup)
    (hdisj : ∀ b ∈ binds, b.denom ∉ keys rs) :
    (buildRecords rs binds).length = rs.length + binds.length := by
  induction binds generalizing rs with
  | nil => simp [buildRecords]
  | cons b rest ih =>
      simp only [List.map_cons, List.nodup_cons] at hn
      have hb : recGet rs b.denom = none :=
        (recGet_eq_none_iff rs b.denom).mpr (hdisj b (List.mem_cons_self b rest))
      simp only [buildRecords, List.length_cons]
      rw [ih _ hn.2 ?_, length_recSet_absent rs b.denom _ hb]
      · omega
      · intro b' hb'
        rw [keys_recSet_absent rs b.denom _ hb]
        simp only [List.mem_append, List.mem_singleton, not_or]
        refine ⟨hdisj b' (List.mem_cons_of_mem b hb'), ?_⟩
        intro heq
        exact hn.1 (heq ▸ List.mem_map_of_mem (fun x => x.denom) hb')

theorem buildRecords_ne_nil (binds : List BindTokenInfo) (hb : binds ≠ []) :
    buildRecords [] binds ≠ [] := by
  intro h
  match binds, hb with
  | b :: rest, _ =>
      have h1 : (1 : ℕ) ≤ (buildRecords [] (b :: rest)).length := by
        simp only [buildRecords]
        calc (1 : ℕ) = (recSet [] b.denom ⟨b.weight, b.amount⟩).length := by
              simp [recSet, recGet]
          _ ≤ _ := buildRecords_length_ge rest _
      rw [h] at h1
      simp at h1

theorem joinTargets_ok_bound (ratio : Dec) (rs : Records) (l : List MaxAmountIn) (cs : Coins)
    (h : joinTargets ratio rs l = .ok cs) : ∀ c ∈ cs, (recGet rs c.1).isSome := by
  induction l generalizing cs with
  | nil =>
      simp only [joinTargets, Except.ok.injEq] at h
      subst h
      intro c hc
      exact absurd hc (List.not_mem_nil c)
  | cons m rest ih =>
      simp only [joinTargets] at h
      split at h
      · exact Except.noConfusion h
      · split at h
        · exact Except.noConfusion h
        · split at h
          · exact Except.noConfusion h
          · split at h
            · exact Except.noConfusion h
            · rename_i e cs' heq
              simp only [Except.ok.injEq] at h
              subst h
              intro c hc
              rcases List.mem_cons.mp hc with h1 | h1
              · subst h1
                rename_i hnone _ _
                simp only [Option.isNone_iff_eq_none] at hnone
                exact Option.isSome_iff_ne_none.mpr hnone
              · exact ih cs' heq c h1

theorem joinTargets_not_panic (ratio : Dec) (rs : Records) (l : List MaxAmountIn) :
    joinTargets ratio rs l ≠ .error .panicDivZero ∧
    joinTargets ratio rs l ≠ .error .bankError := by
  induction l with
  | nil => simp [joinTargets]
  | cons m rest ih =>
      simp only [joinTargets]
      split
      · simp
      · split
        · simp
        · split
          · simp
          · split
            · rename_i heq
              rw [heq] at ih
              simpa using ih
            · simp

theorem joinTargets_unbound (ratio : Dec) (rs : Records) (l : List MaxAmountIn)
    (h : ∃ m ∈ l, recGet rs m.denom = none) (cs : Coins) :
    joinTargets ratio rs l ≠ .ok cs := by
  induction l generalizing cs with
  | nil => simp at h
  | cons m rest ih =>
      rcases h with ⟨m', hm', hnone⟩
      simp only [joinTargets]
      rcases List.mem_cons.mp hm' with h1 | h1
      · subst h1
        simp [hnone]
      · split
        · simp
        · split
          · simp
          · split
            · simp
            · split
              · simp
              · rename_i cs' _
                simp only [ne_eq, Except.ok.injEq]
                intro hcs
                exact ih ⟨m', h1, hnone⟩ cs' (by assumption)

theorem exitAmounts_ok (ratio : Dec) (l : List MinAmountOut) (rs rs' : Records) (cs : Coins)
    (h : exitAmounts ratio rs l = .ok (rs', cs)) :
    (∀ e, weightAt rs' e = weightAt rs e) ∧
    (∀ e, (recGet rs e).isSome → (recGet rs' e).isSome) ∧
    (∀ c ∈ cs, (recGet rs' c.1).isSome) ∧
    (∀ d, d ∉ cs.map Prod.fst → recGet rs' d = recGet rs d) ∧
    rs'.length = rs.length := by
  induction l generalizing rs rs' cs with
  | nil =>
      simp only [exitAmounts, Except.ok.injEq, Prod.mk.injEq] at h
      obtain ⟨h1, h2⟩ := h
      subst h1; subst h2
      exact ⟨fun _ => rfl, fun _ he => he, fun c hc => absurd hc (List.not_mem_nil c),
        fun _ _ => rfl, rfl⟩
  | cons m rest ih =>
      rcases hx : recGet rs m.denom with _ | r0
      · simp only [exitAmounts, hx, Option.isNone_none, if_true] at h
        exact Except.noConfusion h
      · simp only [exitAmounts, recGetD, hx, Option.getD_some, Option.isNone_some,
          Bool.false_eq_true, if_false] at h
        split at h
        · exact Except.noConfusion h
        · split at h
          · exact Except.noConfusion h
          · split at h
            · exact Except.noConfusion h
            · rename_i rs2 cs2 heq
              simp only [Except.ok.injEq, Prod.mk.injEq] at h
              obtain ⟨h1, h2⟩ := h
              subst h1; subst h2
              obtain ⟨iha, ihb, ihc, ihd, ihe⟩ := ih _ _ _ heq
              have hsome : (recGet rs m.denom).isSome := by rw [hx]; rfl
              refine ⟨?_, ?_, ?_, ?_, ?_⟩
              · intro e
                rw [iha e]
                exact weightAt_recSet rs m.denom hx _ e
              · intro e he
                exact ihb e (recGet_recSet_isSome rs m.denom _ e he)
              · intro c hc
                rcases List.mem_cons.mp hc with h1 | h1
                · subst h1
                  exact ihb m.denom (by rw [recGet_recSet_self]; rfl)
                · exact ihc c h1
              · intro d hdm
                simp only [List.map_cons, List.mem_cons, not_or] at hdm
                rw [ihd d hdm.2, recGet_recSet_ne rs m.denom _ hdm.1]
              · rw [ihe, length_recSet_present rs m.denom _ hsome]

theorem exitAmounts_error_kinds (ratio : Dec) (l : List MinAmountOut) (rs : Records) (e : Err)
    (h : exitAmounts ratio rs l = .error e) : e ≠ .panicDivZero ∧ e ≠ .bankError := by
  induction l generalizing rs e with
  | nil => simp [exitAmounts] at h
  | cons m rest ih =>
      rcases hx : recGet rs m.denom with _ | r0
      · simp only [exitAmounts, hx, Option.isNone_none, if_true, Except.error.injEq] at h
        subst h
        simp
      · simp only [exitAmounts, recGetD, hx, Option.getD_some, Option.isNone_some,
          Bool.false_eq_true, if_false] at h
        split at h
        · simp only [Except.error.injEq] at h
          subst h
          simp
        · split at h
          · simp only [Except.error.injEq] at h
            subst h
            simp
          · split at h
            · rename_i e2 heq
              simp only [Except.error.injEq] at h
              subst h
              exact ih _ _ heq
            · exact Except.noConfusion h

theorem exitAmounts_unbound (ratio : Dec) (l : List MinAmountOut) (rs : Records)
    (h : ∃ m ∈ l, recGet rs m.denom = none) (out : Records × Coins) :
    exitAmounts ratio rs l ≠ .ok out := by
  induction l generalizing rs out with
  | nil => simp at h
  | cons m rest ih =>
      rcases h with ⟨m', hm', hnone⟩
      simp only [exitAmounts]
      rcases List.mem_cons.mp hm' with h1 | h1
      · subst h1
        simp [hnone]
      · split
        · simp
        · split
          · simp
          · split
            · simp
            · rename_i hn _ _
              simp only [Option.isNone_iff_eq_none] at hn
              have hne : m'.denom ≠ m.denom := by
                intro heq
                rw [← heq] at hn
                exact hn hnone
              split
              · simp
              · rename_i rcs heq2
                simp only [ne_eq, Except.ok.injEq]
                intro hcs
                exact ih _ ⟨m', h1, by
                  rw [recGet_recSet_ne rs m.denom _ hne]
                  exact hnone⟩ _ heq2

theorem joinPool_ok (extOk : Bool) (pool : Pool) (ts : Coins) (amt : ℤ) (res : RunResult)
    (h : joinPool extOk pool ts amt = .ok res) :
    res = { writes := [{ pool with
              token := { pool.token with totalSupply := pool.token.totalSupply + amt },
              records := updCoins (fun b a => b + a) pool.records ts }],
            coins := ts, minted := amt, burned := 0, ret := 0 } := by
  cases extOk with
  | false => exact Except.noConfusion h
  | true =>
      simp only [joinPool, if_true, Except.ok.injEq] at h
      exact h.symm

theorem exitPool_ok (extOk : Bool) (pool : Pool) (amt : ℤ) (cs : Coins) (res : RunResult)
    (h : exitPool extOk pool amt cs = .ok res) :
    res = { writes := [{ pool with
              token := { pool.token with totalSupply := pool.token.totalSupply - amt },
              records := updCoins (fun b a => b - a) pool.records cs }],
            coins := cs, minted := 0, burned := amt, ret := 0 } := by
  cases extOk with
  | false => exact Except.noConfusion h
  | true =>
      simp only [exitPool, if_true, Except.ok.injEq] at h
      exact h.symm

theorem JoinPool_ok_inv (extOk : Bool) (pool : Pool) (out : ℤ) (maxs : List MaxAmountIn)
    (res : RunResult) (h : JoinPool extOk pool out maxs = .ok res) :
    ∃ ts, joinTargets (decQuo (intToDec out) (intToDec pool.token.totalSupply))
        pool.records maxs = .ok ts ∧ joinPool extOk pool ts out = .ok res := by
  simp only [JoinPool] at h
  split at h
  · exact Except.noConfusion h
  · split at h
    · exact Except.noConfusion h
    · split at h
      · exact Except.noConfusion h
      · split at h
        · exact Except.noConfusion h
        · split at h
          · exact Except.noConfusion h
          · rename_i ts heq
            exact ⟨ts, heq, h⟩

theorem JoinPoolWithExternAmountIn_ok_inv (pm : PoolMath) (extOk : Bool) (pool : Pool)
    (tIn : Denom) (amt minOut : ℤ) (res : RunResult)
    (h : JoinPoolWithExternAmountIn pm extOk pool tIn amt minOut = .ok res) :
    ∃ record amtOut r0, recGet pool.records tIn = some record ∧
      joinPool extOk pool [(tIn, amt)] amtOut = .ok r0 ∧ res = { r0 with ret := amtOut } := by
  simp only [JoinPoolWithExternAmountIn] at h
  split at h
  · exact Except.noConfusion h
  · rename_i record hrec
    split at h
    · exact Except.noConfusion h
    · split at h
      · exact Except.noConfusion h
      · split at h
        · exact Except.noConfusion h
        · rename_i r0 heq
          simp only [Except.ok.injEq] at h
          exact ⟨record, _, r0, hrec, heq, h.symm⟩

theorem JoinPoolWithPoolAmountOut_ok_inv (pm : PoolMath) (extOk : Bool) (pool : Pool)
    (tIn : Denom) (out maxIn : ℤ) (res : RunResult)
    (h : JoinPoolWithPoolAmountOut pm extOk pool tIn out maxIn = .ok res) :
    ∃ record amtIn r0, recGet pool.records tIn = some record ∧
      joinPool extOk pool [(tIn, amtIn)] out = .ok r0 ∧ res = { r0 with ret := out } := by
  simp only [JoinPoolWithPoolAmountOut] at h
  split at h
  · exact Except.noConfusion h
  · rename_i record hrec
    split at h
    · exact Except.noConfusion h
    · split at h
      · exact Except.noConfusion h
      · split at h
        · exact Except.noConfusion h
        · split at h
          · exact Except.noConfusion h
          · rename_i r0 heq
            simp only [Except.ok.injEq] at h
            exact ⟨record, _, r0, hrec, heq, h.symm⟩

theorem ExitPool_ok_inv (extOk : Bool) (pool : Pool) (amtIn : ℤ) (mins : List MinAmountOut)
    (res : RunResult) (h : ExitPool extOk pool amtIn mins = .ok res) :
    ∃ rs' cs, exitAmounts (decQuo (intToDec amtIn) (intToDec pool.token.totalSupply))
        pool.records mins = .ok (rs', cs) ∧
      exitPool extOk { pool with records := rs' } amtIn cs = .ok res := by
  simp only [ExitPool] at h
  split at h
  · exact Except.noConfusion h
  · split at h
    · exact Except.noConfusion h
    · split at h
      · exact Except.noConfusion h
      · split at h
        · exact Except.noConfusion h
        · split at h
          · exact Except.noConfusion h
          · rename_i rs' cs heq
            exact ⟨rs', cs, heq, h⟩

theorem ExitPoolWithPoolAmountIn_ok_inv (pm : PoolMath) (extOk : Bool) (pool : Pool)
    (tOut : Denom) (amtIn minOut : ℤ) (res : RunResult)
    (h : ExitPoolWithPoolAmountIn pm extOk pool tOut amtIn minOut = .ok res) :
    ∃ record amtOut r0, recGet pool.records tOut = some record ∧
      exitPool extOk pool amtIn [(tOut, amtOut)] = .ok r0 ∧ res = { r0 with ret := amtOut } := by
  simp only [ExitPoolWithPoolAmountIn] at h
  split at h
  · exact Except.noConfusion h
  · rename_i record hrec
    split at h
    · exact Except.noConfusion h
    · split at h
      · exact Except.noConfusion h
      · split at h
        · exact Except.noConfusion h
        · rename_i r0 heq
          simp only [Except.ok.injEq] at h
          exact ⟨record, _, r0, hrec, heq, h.symm⟩

theorem ExitPoolWithExternAmountOut_ok_inv (pm : PoolMath) (extOk : Bool) (pool : Pool)
    (tOut : Denom) (amt maxIn : ℤ) (res : RunResult)
    (h : ExitPoolWithExternAmountOut pm extOk pool tOut amt maxIn = .ok res) :
    ∃ record pAmtIn r0, recGet pool.records tOut = some record ∧
      exitPool extOk pool pAmtIn [(tOut, amt)] = .ok r0 ∧ res = { r0 with ret := pAmtIn } := by
  simp only [ExitPoolWithExternAmountOut] at h
  split at h
  · exact Except.noConfusion h
  · rename_i record hrec
    split at h
    · exact Except.noConfusion h
    · split at h
      · exact Except.noConfusion h
      · split at h
        · exact Except.noConfusion h
        · split at h
          · exact Except.noConfusion h
          · rename_i r0 heq
            simp only [Except.ok.injEq] at h
            exact ⟨record, _, r0, hrec, heq, h.symm⟩

/-- The frame facts common to one internal-`joinPool` store write. -/
theorem joinPool_frame (extOk : Bool) (pool : Pool) (ts : Coins) (amt : ℤ) (res : RunResult)
    (hb : ∀ c ∈ ts, (recGet pool.records c.1).isSome)
    (h : joinPool extOk pool ts amt = .ok res) :
    res.writes.length = 1 ∧
    res.writes.map (fun w => w.token.totalSupply)
      = [pool.token.totalSupply + res.minted - res.burned] ∧
    ∀ w ∈ res.writes,
      w.id = pool.id ∧ w.swapFee = pool.swapFee ∧ w.token.denom = pool.token.denom ∧
      w.token.description = pool.token.description ∧ w.totalWeight = pool.totalWeight ∧
      (∀ e, weightAt w.records e = weightAt pool.records e) ∧
      (∀ d, d ∉ res.coins.map Prod.fst → recGet w.records d = recGet pool.records d) := by
  have hres := joinPool_ok extOk pool ts amt res h
  subst hres
  refine ⟨rfl, by simp, ?_⟩
  intro w hw
  rw [List.mem_singleton] at hw
  subst hw
  refine ⟨rfl, rfl, rfl, rfl, rfl, ?_, ?_⟩
  · exact fun e => updCoins_weightAt _ ts pool.records hb e
  · exact fun d hd => updCoins_unlisted _ ts pool.records d hd

/-- The frame facts common to one internal-`exitPool` store write, on records
`rs'` that may already have absorbed the proportional pre-decrement. -/
theorem exitPool_frame (extOk : Bool) (pool : Pool) (rs' : Records) (amt : ℤ) (cs : Coins)
    (res : RunResult)
    (hw : ∀ e, weightAt rs' e = weightAt pool.records e)
    (hb : ∀ c ∈ cs, (recGet rs' c.1).isSome)
    (hu : ∀ d, d ∉ cs.map Prod.fst → recGet rs' d = recGet pool.records d)
    (h : exitPool extOk { pool with records := rs' } amt cs = .ok res) :
    res.writes.length = 1 ∧
    res.writes.map (fun w => w.token.totalSupply)
      = [pool.token.totalSupply + res.minted - res.burned] ∧
    ∀ w ∈ res.writes,
      w.id = pool.id ∧ w.swapFee = pool.swapFee ∧ w.token.denom = pool.token.denom ∧
      w.token.description = pool.token.description ∧ w.totalWeight = pool.totalWeight ∧
      (∀ e, weightAt w.records e = weightAt pool.records e) ∧
      (∀ d, d ∉ res.coins.map Prod.fst → recGet w.records d = recGet pool.records d) := by
  have hres := exitPool_ok extOk { pool with records := rs' } amt cs res h
  subst hres
  refine ⟨rfl, by simp, ?_⟩
  intro w hwm
  rw [List.mem_singleton] at hwm
  subst hwm
  refine ⟨rfl, rfl, rfl, rfl, rfl, ?_, ?_⟩
  · intro e
    rw [show ({ pool with records := rs' } : Pool).records = rs' from rfl] at *
    rw [updCoins_weightAt _ cs rs' hb e]
    exact hw e
  · intro d hd
    rw [show ({ pool with records := rs' } : Pool).records = rs' from rfl] at *
    rw [updCoins_unlisted _ cs rs' d hd]
    exact hu d hd

/-- Every successful fetch-based operation performs exactly one store write;
that write keeps the pool identity, swap fee, share denomination and
description, and the total weight; it changes the total supply by exactly the
shares minted minus the shares burned; it keeps every record's denormalized
weight; and it keeps every record whose denomination is not in the coin list
forwarded to the bank. -/
theorem runOp_ok_frame (pm : PoolMath) (extOk : Bool) (pool : Pool) (op : Op) (res : RunResult)
    (h : runOp pm extOk pool op = .ok res) :
    res.writes.length = 1 ∧
    res.writes.map (fun w => w.token.totalSupply)
      = [pool.token.totalSupply + res.minted - res.burned] ∧
    ∀ w ∈ res.writes,
      w.id = pool.id ∧ w.swapFee = pool.swapFee ∧ w.token.denom = pool.token.denom ∧
      w.token.description = pool.token.description ∧ w.totalWeight = pool.totalWeight ∧
      (∀ e, weightAt w.records e = weightAt pool.records e) ∧
      (∀ d, d ∉ res.coins.map Prod.fst → recGet w.records d = recGet pool.records d) := by
  cases op with
  | join out maxs =>
      obtain ⟨ts, heq, hjp⟩ := JoinPool_ok_inv extOk pool out maxs res h
      exact joinPool_frame extOk pool ts out res
        (joinTargets_ok_bound _ pool.records maxs ts heq) hjp
  | joinExternAmountIn tIn amt minOut =>
      obtain ⟨record, amtOut, r0, hrec, hjp, hres⟩ :=
        JoinPoolWithExternAmountIn_ok_inv pm extOk pool tIn amt minOut res h
      subst hres
      have hb : ∀ c ∈ ([(tIn, amt)] : Coins), (recGet pool.records c.1).isSome := by
        intro c hc
        rw [List.mem_singleton] at hc
        subst hc
        rw [hrec]
        rfl
      exact joinPool_frame extOk pool [(tIn, amt)] amtOut r0 hb hjp
  | joinPoolAmountOut tIn out maxIn =>
      obtain ⟨record, amtIn, r0, hrec, hjp, hres⟩ :=
        JoinPoolWithPoolAmountOut_ok_inv pm extOk pool tIn out maxIn res h
      subst hres
      have hb : ∀ c ∈ ([(tIn, amtIn)] : Coins), (recGet pool.records c.1).isSome := by
        intro c hc
        rw [List.mem_singleton] at hc
        subst hc
        rw [hrec]
        rfl
      exact joinPool_frame extOk pool [(tIn, amtIn)] out r0 hb hjp
  | exit amtIn mins =>
      obtain ⟨rs', cs, heq, hep⟩ := ExitPool_ok_inv extOk pool amtIn mins res h
      obtain ⟨hwts, _, hb, hu, _⟩ := exitAmounts_ok _ mins pool.records rs' cs heq
      exact exitPool_frame extOk pool rs' amtIn cs res hwts hb hu hep
  | exitPoolAmountIn tOut amtIn minOut =>
      obtain ⟨record, amtOut, r0, hrec, hep, hres⟩ :=
        ExitPoolWithPoolAmountIn_ok_inv pm extOk pool tOut amtIn minOut res h
      subst hres
      have hb : ∀ c ∈ ([(tOut, amtOut)] : Coins), (recGet pool.records c.1).isSome := by
        intro c hc
        rw [List.mem_singleton] at hc
        subst hc
        rw [hrec]
        rfl
      exact exitPool_frame extOk pool pool.records amtIn [(tOut, amtOut)] r0
        (fun _ => rfl) hb (fun _ _ => rfl) hep
  | exitExternAmountOut tOut amt maxIn =>
      obtain ⟨record, pAmtIn, r0, hrec, hep, hres⟩ :=
        ExitPoolWithExternAmountOut_ok_inv pm extOk pool tOut amt maxIn res h
      subst hres
      have hb : ∀ c ∈ ([(tOut, amt)] : Coins), (recGet pool.records c.1).isSome := by
        intro c hc
        rw [List.mem_singleton] at hc
        subst hc
        rw [hrec]
        rfl
      exact exitPool_frame extOk pool pool.records pAmtIn [(tOut, amt)] r0
        (fun _ => rfl) hb (fun _ _ => rfl) hep

theorem coinsRaw_bound (rs : Records) :
    ∀ c ∈ sortCoins (rs.map (fun p => (p.1, p.2.balance))), (recGet rs c.1).isSome := by
  intro c hc
  rw [mem_sortCoins] at hc
  rw [recGet_isSome_iff]
  obtain ⟨p, hp, hcp⟩ := List.mem_map.mp hc
  subst hcp
  simp only [keys]
  exact List.mem_map_of_mem Prod.fst hp

/-- A successful `CreatePool` implies the validated binding count, two store
writes (the zero-supply persist and the one of the internal `joinPool`), the
initial supply minted, and both writes carrying the collapsed records
mapping. -/
theorem CreatePool_ok_master (extOk : Bool) (pid : ℕ) (fee : Dec) (lp : LPTokenInfo)
    (binds : List BindTokenInfo) (res : RunResult)
    (h : CreatePool extOk pid fee lp binds = .ok res) :
    2 ≤ binds.length ∧ binds.length ≤ 8 ∧
    res.writes.length = 2 ∧
    res.minted = INITIAL_SHARE_SUPPLY ∧ res.burned = 0 ∧
    res.writes.map (fun w => w.token.totalSupply) = [0, res.minted - res.burned] ∧
    res.writes.map (fun w => w.records.length)
      = [(buildRecords [] binds).length, (buildRecords [] binds).length] := by
  simp only [CreatePool] at h
  split at h
  · exact Except.noConfusion h
  · split at h
    · exact Except.noConfusion h
    · rename_i h2 h8
      split at h
      · exact Except.noConfusion h
      · split at h
        · exact Except.noConfusion h
        · rename_i r0 heq
          simp only [Except.ok.injEq] at h
          subst h
          have hres := joinPool_ok extOk _ _ INITIAL_SHARE_SUPPLY r0 heq
          subst hres
          refine ⟨by omega, by omega, rfl, rfl, rfl, by simp, ?_⟩
          simp only [List.map_cons, List.map_nil, List.cons.injEq, and_true, true_and]
          exact updCoins_length _ _ _ (coinsRaw_bound (buildRecords [] binds))

theorem joinPool_error (extOk : Bool) (pool : Pool) (ts : Coins) (amt : ℤ) (e : Err)
    (h : joinPool extOk pool ts amt = .error e) : e = .bankError := by
  cases extOk with
  | false =>
      simp only [joinPool, Bool.false_eq_true, if_false, Except.error.injEq] at h
      exact h.symm
  | true => exact Except.noConfusion h

theorem exitPool_error (extOk : Bool) (pool : Pool) (amt : ℤ) (cs : Coins) (e : Err)
    (h : exitPool extOk pool amt cs = .error e) : e = .bankError := by
  cases extOk with
  | false =>
      simp only [exitPool, Bool.false_eq_true, if_false, Except.error.injEq] at h
      exact h.symm
  | true => exact Except.noConfusion h

theorem decMul_intToDec_ratio (bal c : ℤ) : decMul (intToDec bal) c = bal * c := by
  unfold decMul intToDec oneDec tdivZ
  rw [show bal * 10 ^ 18 * c = bal * c * 10 ^ 18 by ring]
  exact Int.mul_tdiv_cancel _ (by norm_num)

theorem half_cap {amt bal : ℤ} (h : intToDec amt ≤ decMul (intToDec bal) maxInRatio) :
    2 * amt ≤ bal := by
  rw [decMul_intToDec_ratio] at h
  have hm : maxInRatio = 500000000000000000 := rfl
  rw [hm] at h
  unfold intToDec oneDec at h
  have h2 : (2 * amt) * 500000000000000000 ≤ bal * 500000000000000000 := by linarith
  exact le_of_mul_le_mul_right h2 (by norm_num)

theorem third_cap {amt bal : ℤ} (hb : 0 ≤ bal)
    (h : intToDec amt ≤ decMul (intToDec bal) maxOutRatio) : 3 * amt ≤ bal := by
  rw [decMul_intToDec_ratio] at h
  have hm : maxOutRatio = 333333333333333333 := rfl
  rw [hm] at h
  unfold intToDec oneDec at h
  have h3 : (3 * amt) * 10 ^ 18 ≤ bal * 10 ^ 18 := by linarith
  exact le_of_mul_le_mul_right h3 (by norm_num)

/-- C1: evaluation of the code at the failing input.  On the pool with
balances 200/200 and supply `10 ^ 8`, the proportional
`ExitPool(poolAmountIn = 10 ^ 7)` computes `tokenAmountOut = 20` per asset
(the coin list sent to the bank), yet the stored pool's balances drop by 40:
once in `ExitPool`'s loop and once more in the internal `exitPool` over the
shared records mapping — contradicting the claimed single decrement. -/
theorem c1_exitPool_double_decrement :
    ExitPool true poolAB (10 ^ 7) [⟨"a", 0⟩, ⟨"b", 0⟩] = .ok c1res ∧
    c1res.coins = [("a", 20), ("b", 20)] ∧
    c1res.writes = [poolABafterExit] ∧
    recGet poolAB.records "a" = some ⟨10 ^ 18, 200⟩ ∧
    recGet poolABafterExit.records "a" = some ⟨10 ^ 18, 160⟩ ∧
    (160 : ℤ) = 200 - 2 * 20 ∧ (160 : ℤ) ≠ 200 - 20 :=
  ⟨rfl, rfl, rfl, rfl, rfl, by decide, by decide⟩

/-- C2 counterexample: a successful `CreatePool` performs two `StorePool`
writes (its own persist of the zero-supply pool, then the internal
`joinPool`'s write), not exactly one. -/
theorem c2_createPool_two_writes_counterexample :
    CreatePool true 1 0 ⟨"", "d"⟩ bindsAB = .ok cresAB ∧
    cresAB.writes.length = 2 ∧ cresAB.writes.length ≠ 1 :=
  ⟨rfl, rfl, by decide⟩

/-- C2 (amended): every successful fetch-based join or exit variant performs
exactly one `StorePool` write, while a successful `CreatePool` performs
exactly two. -/
theorem c2_amended_store_write_counts :
    (∀ pm extOk pool op res, runOp pm extOk pool op = .ok res → res.writes.length = 1) ∧
    (∀ extOk poolId swapFee lpTokenIn bindTokens res,
      CreatePool extOk poolId swapFee lpTokenIn bindTokens = .ok res →
      res.writes.length = 2) := by
  constructor
  · intro pm extOk pool op res h
    exact (runOp_ok_frame pm extOk pool op res h).1
  · intro extOk poolId swapFee lpTokenIn bindTokens res h
    exact (CreatePool_ok_master extOk poolId swapFee lpTokenIn bindTokens res h).2.2.1

/-- C2 witness: the store-write counts at a concrete join and a concrete
`CreatePool`. -/
theorem c2_amended_store_write_counts_witness :
    jresAB.writes.length = 1 ∧ cresAB.writes.length = 2 := by
  have h1 : runOp pmConst true poolAB (.join (10 ^ 7) [⟨"a", 100⟩, ⟨"b", 100⟩]) = .ok jresAB :=
    rfl
  have h2 : CreatePool true 1 0 ⟨"", "d"⟩ bindsAB = .ok cresAB := rfl
  exact ⟨c2_amended_store_write_counts.1 pmConst true poolAB _ jresAB h1,
    c2_amended_store_write_counts.2 true 1 0 ⟨"", "d"⟩ bindsAB cresAB h2⟩

/-- C3: the single store write of every successful fetch-based join or exit
carries a total supply equal to the previous one plus the shares minted minus
the shares burned through the share ledger; `CreatePool`'s two writes carry
supply zero and then exactly the minted initial supply. -/
theorem c3_total_supply_conservation :
    (∀ pm extOk pool op res, runOp pm extOk pool op = .ok res →
      res.writes.map (fun w => w.token.totalSupply)
        = [pool.token.totalSupply + res.minted - res.burned]) ∧
    (∀ extOk poolId swapFee lpTokenIn bindTokens res,
      CreatePool extOk poolId swapFee lpTokenIn bindTokens = .ok res →
      res.writes.map (fun w => w.token.totalSupply) = [0, res.minted - res.burned]) := by
  constructor
  · intro pm extOk pool op res h
    exact (runOp_ok_frame pm extOk pool op res h).2.1
  · intro extOk poolId swapFee lpTokenIn bindTokens res h
    exact (CreatePool_ok_master extOk poolId swapFee lpTokenIn bindTokens res h).2.2.2.2.2.1

/-- C3 witness: supply conservation at a concrete join, a concrete exit and a
concrete `CreatePool`. -/
theorem c3_total_supply_conservation_witness :
    jresAB.writes.map (fun w => w.token.totalSupply)
      = [poolAB.token.totalSupply + jresAB.minted - jresAB.burned] ∧
    c1res.writes.map (fun w => w.token.totalSupply)
      = [poolAB.token.totalSupply + c1res.minted - c1res.burned] ∧
    cresAB.writes.map (fun w => w.token.totalSupply) = [0, cresAB.minted - cresAB.burned] := by
  have h1 : runOp pmConst true poolAB (.join (10 ^ 7) [⟨"a", 100⟩, ⟨"b", 100⟩]) = .ok jresAB :=
    rfl
  have h2 : runOp pmConst true poolAB (.exit (10 ^ 7) [⟨"a", 0⟩, ⟨"b", 0⟩]) = .ok c1res := rfl
  have h3 : CreatePool true 1 0 ⟨"", "d"⟩ bindsAB = .ok cresAB := rfl
  exact ⟨c3_total_supply_conservation.1 pmConst true poolAB _ jresAB h1,
    c3_total_supply_conservation.1 pmConst true poolAB _ c1res h2,
    c3_total_supply_conservation.2 true 1 0 ⟨"", "d"⟩ bindsAB cresAB h3⟩

/-- C4 counterexample: `CreatePool` accepts a binding list whose two entries
share a denomination; they collapse in the mapping and both persisted pools
carry a single record, violating `2 ≤ |records|`. -/
theorem c4_duplicate_denoms_counterexample :
    CreatePool true 1 0 ⟨"", "d"⟩ c4binds = .ok c4res ∧
    c4res.writes.map (fun w => w.records.length) = [1, 1] ∧ ¬ 2 ≤ (1 : ℕ) :=
  ⟨rfl, rfl, by decide⟩

/-- C4 (amended): every pool persisted by a successful `CreatePool` has
between 1 and `len(bindTokens) ≤ 8` records; when the bound denominations are
pairwise distinct the record count equals `len(bindTokens)`, hence lies in
`[2, 8]` — duplicates collapse in the mapping and can drop the count below
two. -/
theorem c4_amended_record_count (extOk : Bool) (poolId : ℕ) (swapFee : Dec)
    (lpTokenIn : LPTokenInfo) (bindTokens : List BindTokenInfo) (res : RunResult)
    (h : CreatePool extOk poolId swapFee lpTokenIn bindTokens = .ok res) :
    ∀ w ∈ res.writes,
      1 ≤ w.records.length ∧ w.records.length ≤ bindTokens.length ∧
      bindTokens.length ≤ 8 ∧
      ((bindTokens.map (fun b => b.denom)).Nodup → w.records.length = bindTokens.length) := by
  obtain ⟨h2, h8, -, -, -, -, hrl⟩ :=
    CreatePool_ok_master extOk poolId swapFee lpTokenIn bindTokens res h
  intro w hw
  have hmem := List.mem_map_of_mem (fun w => w.records.length) hw
  rw [hrl] at hmem
  have hwlen : w.records.length = (buildRecords [] bindTokens).length := by
    rcases List.mem_cons.mp hmem with h1 | h1
    · exact h1
    · rw [List.mem_singleton] at h1
      exact h1
  have hne : buildRecords [] bindTokens ≠ [] := by
    apply buildRecords_ne_nil
    intro hb
    rw [hb] at h2
    simp at h2
  refine ⟨?_, ?_, h8, ?_⟩
  · rw [hwlen]
    have := List.length_pos.mpr hne
    omega
  · rw [hwlen]
    have := buildRecords_length_le bindTokens []
    simpa using this
  · intro hn
    rw [hwlen]
    have := buildRecords_length_nodup bindTokens [] hn (by simp [keys])
    simpa using this

/-- C4 witness: the amended record-count bounds at a concrete `CreatePool`. -/
theorem c4_amended_record_count_witness :
    1 ≤ poolAB.records.length ∧ poolAB.records.length ≤ bindsAB.length ∧
    bindsAB.length ≤ 8 ∧
    ((bindsAB.map (fun b => b.denom)).Nodup → poolAB.records.length = bindsAB.length) := by
  have h1 : CreatePool true 1 0 ⟨"", "d"⟩ bindsAB = .ok cresAB := rfl
  exact c4_amended_record_count true 1 0 ⟨"", "d"⟩ bindsAB cresAB h1 poolAB (by decide)

/-- C8: no fetch-based join or exit variant changes any record's denormalized
weight or the pool's total weight in the pool it stores. -/
theorem c8_weight_invariance (pm : PoolMath) (extOk : Bool) (pool : Pool) (op : Op)
    (res : RunResult) (h : runOp pm extOk pool op = .ok res) :
    ∀ w ∈ res.writes, w.totalWeight = pool.totalWeight ∧
      ∀ e, weightAt w.records e = weightAt pool.records e := by
  intro w hw
  obtain ⟨-, -, hf⟩ := runOp_ok_frame pm extOk pool op res h
  obtain ⟨-, -, -, -, h5, h6, -⟩ := hf w hw
  exact ⟨h5, h6⟩

/-- C8 witness: weight invariance at a concrete proportional join and a
concrete proportional exit. -/
theorem c8_weight_invariance_witness :
    (poolABjoined.totalWeight = poolAB.totalWeight ∧
      weightAt poolABjoined.records "a" = weightAt poolAB.records "a") ∧
    (poolABafterExit.totalWeight = poolAB.totalWeight ∧
      weightAt poolABafterExit.records "b" = weightAt poolAB.records "b") := by
  have h1 : runOp pmConst true poolAB (.join (10 ^ 7) [⟨"a", 100⟩, ⟨"b", 100⟩]) = .ok jresAB :=
    rfl
  have h2 : runOp pmConst true poolAB (.exit (10 ^ 7) [⟨"a", 0⟩, ⟨"b", 0⟩]) = .ok c1res := rfl
  have w1 := c8_weight_invariance pmConst true poolAB _ jresAB h1 poolABjoined (by decide)
  have w2 := c8_weight_invariance pmConst true poolAB _ c1res h2 poolABafterExit (by decide)
  exact ⟨⟨w1.1, w1.2 "a"⟩, ⟨w2.1, w2.2 "b"⟩⟩

/-- C10: the pool stored by a successful fetch-based join or exit keeps the
pool id, the swap fee, the share denomination and description, and every
record whose denomination does not appear in the coin list forwarded to the
bank; only the total supply and the listed balances change (their weights are
kept by the C8 frame). -/
theorem c10_frame_unlisted_unchanged (pm : PoolMath) (extOk : Bool) (pool : Pool) (op : Op)
    (res : RunResult) (h : runOp pm extOk pool op = .ok res) :
    ∀ w ∈ res.writes,
      w.id = pool.id ∧ w.swapFee = pool.swapFee ∧ w.token.denom = pool.token.denom ∧
      w.token.description = pool.token.description ∧
      (∀ d, d ∉ res.coins.map Prod.fst → recGet w.records d = recGet pool.records d) ∧
      (∀ e, weightAt w.records e = weightAt pool.records e) := by
  intro w hw
  obtain ⟨-, -, hf⟩ := runOp_ok_frame pm extOk pool op res h
  obtain ⟨h1, h2, h3, h4, -, h6, h7⟩ := hf w hw
  exact ⟨h1, h2, h3, h4, h7, h6⟩

/-- C10 witness: at a concrete single-asset join depositing only `a`, the
record of `b` in the stored pool is untouched and the identity fields are
kept. -/
theorem c10_frame_unlisted_unchanged_witness :
    poolABext.id = poolAB.id ∧ poolABext.swapFee = poolAB.swapFee ∧
    poolABext.token.denom = poolAB.token.denom ∧
    poolABext.token.description = poolAB.token.description ∧
    recGet poolABext.records "b" = recGet poolAB.records "b" := by
  have h1 : runOp pmConst true poolAB (.joinExternAmountIn "a" 50 0) = .ok jextRes := rfl
  have hf := c10_frame_unlisted_unchanged pmConst true poolAB _ jextRes h1 poolABext (by decide)
  exact ⟨hf.1, hf.2.1, hf.2.2.1, hf.2.2.2.1, hf.2.2.2.2.1 "b" (by decide)⟩

/-- C9: for every binding list passing `CreatePool`'s length validation, the
initial coin list built from the records mapping is non-empty, so the
`panic("oh my god")` branch is unreachable. -/
theorem c9_no_empty_coins_panic (extOk : Bool) (poolId : ℕ) (swapFee : Dec)
    (lpTokenIn : LPTokenInfo) (bindTokens : List BindTokenInfo)
    (h2 : 2 ≤ bindTokens.length) (h8 : bindTokens.length ≤ 8) :
    CreatePool extOk poolId swapFee lpTokenIn bindTokens ≠ .error .panicEmptyCoins := by
  intro hcon
  simp only [CreatePool] at hcon
  split at hcon
  · simp at hcon
  · split at hcon
    · simp at hcon
    · split at hcon
      · rename_i hempty
        have hne : buildRecords [] bindTokens ≠ [] := by
          apply buildRecords_ne_nil
          intro hb
          rw [hb] at h2
          simp at h2
        rw [List.map_eq_nil_iff] at hempty
        exact hne hempty
      · split at hcon
        · rename_i e heq
          rw [Except.error.injEq] at hcon
          subst hcon
          exact Err.noConfusion (joinPool_error _ _ _ _ _ heq)
        · exact Except.noConfusion hcon

/-- C9 witness: the panic branch is not taken at a concrete validated input. -/
theorem c9_no_empty_coins_panic_witness :
    CreatePool true 1 0 ⟨"", "d"⟩ bindsAB ≠ .error .panicEmptyCoins :=
  c9_no_empty_coins_panic true 1 0 ⟨"", "d"⟩ bindsAB (by decide) (by decide)

/-- C6 counterexample: a pool with zero total supply is reachable through the
service's own operations (create, then a full proportional exit), and on it
the `poolAmountOut / totalSupply` and `poolAmountIn / totalSupply` divisions
of `JoinPool` and `ExitPool` hit the zero-divisor panic of `Dec.Quo`. -/
theorem c6_div_zero_reachable_counterexample :
    Reachable poolABexited ∧ poolABexited.token.totalSupply = 0 ∧
    JoinPool true poolABexited 1 [] = .error .panicDivZero ∧
    ExitPool true poolABexited 1 [] = .error .panicDivZero := by
  refine ⟨?_, rfl, rfl, rfl⟩
  have h1 : CreatePool true 1 0 ⟨"", "d"⟩ bindsAB = .ok cresAB := rfl
  have hr1 : Reachable poolAB :=
    Reachable.created true 1 0 ⟨"", "d"⟩ bindsAB cresAB poolAB h1 rfl
  have h2 : runOp pmConst true poolAB (.exit (10 ^ 8) [⟨"a", 0⟩, ⟨"b", 0⟩]) = .ok eresFull :=
    rfl
  exact Reachable.stepped pmConst true poolAB _ eresFull poolABexited hr1 h2 rfl

/-- C6 (amended): on every reachable pool whose total supply is non-zero, the
divisions of `JoinPool` and `ExitPool` never hit the zero-divisor branch of
`Dec.Quo`; a fully exited pool (total supply zero) is reachable and does hit
it. -/
theorem c6_amended_no_div_zero (pool : Pool) (hre : Reachable pool)
    (hs : pool.token.totalSupply ≠ 0) (extOk : Bool) (poolAmountOut poolAmountIn : ℤ)
    (maxAmountsIn : List MaxAmountIn) (minAmountsOut : List MinAmountOut) :
    JoinPool extOk pool poolAmountOut maxAmountsIn ≠ .error .panicDivZero ∧
    ExitPool extOk pool poolAmountIn minAmountsOut ≠ .error .panicDivZero := by
  have hz : ¬ intToDec pool.token.totalSupply = 0 := by
    unfold intToDec oneDec
    simp only [mul_eq_zero, not_or]
    exact ⟨hs, by norm_num⟩
  constructor
  · intro hcon
    simp only [JoinPool, if_neg hz] at hcon
    split at hcon
    · simp at hcon
    · split at hcon
      · simp at hcon
      · split at hcon
        · simp at hcon
        · split at hcon
          · rename_i e heq
            rw [Except.error.injEq] at hcon
            subst hcon
            exact (joinTargets_not_panic _ _ _).1 heq
          · exact Err.noConfusion (joinPool_error _ _ _ _ _ hcon)
  · intro hcon
    simp only [ExitPool, if_neg hz] at hcon
    split at hcon
    · simp at hcon
    · split at hcon
      · simp at hcon
      · split at hcon
        · simp at hcon
        · split at hcon
          · rename_i e heq
            rw [Except.error.injEq] at hcon
            subst hcon
            exact (exitAmounts_error_kinds _ _ _ _ heq).1 rfl
          · exact Err.noConfusion (exitPool_error _ _ _ _ _ hcon)

/-- C6 witness: the freshly created pool is reachable with non-zero supply and
neither division panics on it. -/
theorem c6_amended_no_div_zero_witness :
    JoinPool true poolAB 1 [] ≠ .error .panicDivZero ∧
    ExitPool true poolAB 1 [] ≠ .error .panicDivZero := by
  have hr : Reachable poolAB :=
    Reachable.created true 1 0 ⟨"", "d"⟩ bindsAB cresAB poolAB rfl rfl
  exact c6_amended_no_div_zero poolAB hr (by decide) true 1 1 [] []

/-- C7 counterexample: a `maxAmountsIn` list containing the unbound
denomination `z` makes `JoinPool` fail, but with `LimitExceed` — an earlier
entry trips its per-entry maximum before the unbound entry is reached — not
with `InvalidRequest`. -/
theorem c7_unbound_denom_error_kind_counterexample :
    recGet poolAB.records "z" = none ∧
    JoinPool true poolAB (10 ^ 8) [⟨"a", 0⟩, ⟨"z", 10⟩] = .error .limitExceed ∧
    Err.limitExceed ≠ Err.invalidRequest :=
  ⟨rfl, rfl, by decide⟩

/-- C7 (amended): a `maxAmountsIn` (resp. `minAmountsOut`) list containing a
denomination not bound to the pool never lets `JoinPool` (resp. `ExitPool`)
succeed — no transfer amount from an undefined record is ever committed — and
when the unbound entry is the one reached the loop returns
`InvalidRequest` ("token is not bound to pool"); an earlier entry may fail
first with a different error. -/
theorem c7_amended_unbound_denom_fails (extOk : Bool) (pool : Pool)
    (poolAmountOut poolAmountIn : ℤ) (maxAmountsIn : List MaxAmountIn)
    (minAmountsOut : List MinAmountOut) :
    ((∃ m ∈ maxAmountsIn, recGet pool.records m.denom = none) →
      ∀ res, JoinPool extOk pool poolAmountOut maxAmountsIn ≠ .ok res) ∧
    ((∃ m ∈ minAmountsOut, recGet pool.records m.denom = none) →
      ∀ res, ExitPool extOk pool poolAmountIn minAmountsOut ≠ .ok res) ∧
    (∀ poolRatio rs m rest, recGet rs m.denom = none →
      joinTargets poolRatio rs (m :: rest) = .error .invalidRequest) ∧
    (∀ poolRatio rs m rest, recGet rs m.denom = none →
      exitAmounts poolRatio rs (m :: rest) = .error .invalidRequest) := by
  refine ⟨?_, ?_, ?_, ?_⟩
  · intro hex res hcon
    obtain ⟨ts, heq, -⟩ := JoinPool_ok_inv extOk pool poolAmountOut maxAmountsIn res hcon
    exact joinTargets_unbound _ pool.records maxAmountsIn hex ts heq
  · intro hex res hcon
    obtain ⟨rs', cs, heq, -⟩ := ExitPool_ok_inv extOk pool poolAmountIn minAmountsOut res hcon
    exact exitAmounts_unbound _ minAmountsOut pool.records hex (rs', cs) heq
  · intro poolRatio rs m rest hnone
    simp [joinTargets, hnone]
  · intro poolRatio rs m rest hnone
    simp [exitAmounts, hnone]

/-- C7 witness: the amended statement at a list naming the unbound `z`. -/
theorem c7_amended_unbound_denom_fails_witness :
    JoinPool true poolAB 1 [⟨"z", 1⟩] ≠ .ok cresAB ∧
    ExitPool true poolAB 1 [⟨"z", 1⟩] ≠ .ok cresAB ∧
    joinTargets 1 poolAB.records [⟨"z", 1⟩] = .error .invalidRequest ∧
    exitAmounts 1 poolAB.records [⟨"z", 1⟩] = .error .invalidRequest := by
  have h := c7_amended_unbound_denom_fails true poolAB 1 1 [⟨"z", 1⟩] [⟨"z", 1⟩]
  exact ⟨h.1 (by decide) cresAB, h.2.1 (by decide) cresAB,
    h.2.2.1 1 poolAB.records ⟨"z", 1⟩ [] (by decide),
    h.2.2.2 1 poolAB.records ⟨"z", 1⟩ [] (by decide)⟩

/-- C5: successful single-asset joins deposit at most `½ · balance` of the
deposited asset (`maxInRatio`), successful single-asset exits release at most
`⅓ · balance` of the withdrawn asset (`maxOutRatio`), and amounts beyond the
caps fail with `MaxInRatio` / `MaxOutRatio` (for the computed-amount variants,
after the earlier guards of the source's order pass). -/
theorem c5_ratio_caps :
    (∀ pm extOk pool tokenIn tokenAmountIn minPoolAmountOut record res,
      recGet pool.records tokenIn = some record →
      JoinPoolWithExternAmountIn pm extOk pool tokenIn tokenAmountIn minPoolAmountOut
        = .ok res →
      intToDec tokenAmountIn ≤ decMul (intToDec record.balance) maxInRatio ∧
      2 * tokenAmountIn ≤ record.balance) ∧
    (∀ pm extOk pool tokenIn poolAmountOut maxAmountIn record res a,
      recGet pool.records tokenIn = some record →
      JoinPoolWithPoolAmountOut pm extOk pool tokenIn poolAmountOut maxAmountIn = .ok res →
      res.coins = [(tokenIn, a)] →
      intToDec a ≤ decMul (intToDec record.balance) maxInRatio ∧ 2 * a ≤ record.balance) ∧
    (∀ pm extOk pool tokenOut poolAmountIn minAmountOut record res a,
      recGet pool.records tokenOut = some record →
      ExitPoolWithPoolAmountIn pm extOk pool tokenOut poolAmountIn minAmountOut = .ok res →
      res.coins = [(tokenOut, a)] →
      intToDec a ≤ decMul (intToDec record.balance) maxOutRatio ∧
      (0 ≤ record.balance → 3 * a ≤ record.balance)) ∧
    (∀ pm extOk pool tokenOut tokenAmountOut maxPoolAmountIn record res,
      recGet pool.records tokenOut = some record →
      ExitPoolWithExternAmountOut pm extOk pool tokenOut tokenAmountOut maxPoolAmountIn
        = .ok res →
      intToDec tokenAmountOut ≤ decMul (intToDec record.balance) maxOutRatio ∧
      (0 ≤ record.balance → 3 * tokenAmountOut ≤ record.balance)) ∧
    (∀ pm extOk pool tokenIn tokenAmountIn minPoolAmountOut record,
      recGet pool.records tokenIn = some record →
      decMul (intToDec record.balance) maxInRatio < intToDec tokenAmountIn →
      JoinPoolWithExternAmountIn pm extOk pool tokenIn tokenAmountIn minPoolAmountOut
        = .error .maxInRatio) ∧
    (∀ pm extOk pool tokenOut tokenAmountOut maxPoolAmountIn record,
      recGet pool.records tokenOut = some record →
      decMul (intToDec record.balance) maxOutRatio < intToDec tokenAmountOut →
      ExitPoolWithExternAmountOut pm extOk pool tokenOut tokenAmountOut maxPoolAmountIn
        = .error .maxOutRatio) ∧
    (∀ pm extOk pool tokenIn poolAmountOut maxAmountIn record,
      recGet pool.records tokenIn = some record →
      decTruncInt (pm.calcSingleInGivenPoolOut (intToDec record.balance)
          record.denormalizedWeight (intToDec pool.token.totalSupply) pool.totalWeight
          (intToDec poolAmountOut) pool.swapFee) ≠ 0 →
      decTruncInt (pm.calcSingleInGivenPoolOut (intToDec record.balance)
          record.denormalizedWeight (intToDec pool.token.totalSupply) pool.totalWeight
          (intToDec poolAmountOut) pool.swapFee) ≤ maxAmountIn →
      decMul (intToDec record.balance) maxInRatio
        < intToDec (decTruncInt (pm.calcSingleInGivenPoolOut (intToDec record.balance)
            record.denormalizedWeight (intToDec pool.token.totalSupply) pool.totalWeight
            (intToDec poolAmountOut) pool.swapFee)) →
      JoinPoolWithPoolAmountOut pm extOk pool tokenIn poolAmountOut maxAmountIn
        = .error .maxInRatio) ∧
    (∀ pm extOk pool tokenOut poolAmountIn minAmountOut record,
      recGet pool.records tokenOut = some record →
      minAmountOut ≤ decTruncInt (pm.calcSingleOutGivenPoolIn (intToDec record.balance)
          record.denormalizedWeight (intToDec pool.token.totalSupply) pool.totalWeight
          (intToDec poolAmountIn) pool.swapFee) →
      decMul (intToDec record.balance) maxOutRatio
        < intToDec (decTruncInt (pm.calcSingleOutGivenPoolIn (intToDec record.balance)
            record.denormalizedWeight (intToDec pool.token.totalSupply) pool.totalWeight
            (intToDec poolAmountIn) pool.swapFee)) →
      ExitPoolWithPoolAmountIn pm extOk pool tokenOut poolAmountIn minAmountOut
        = .error .maxOutRatio) := by
  refine ⟨?_, ?_, ?_, ?_, ?_, ?_, ?_, ?_⟩
  · intro pm extOk pool tokenIn tokenAmountIn minPoolAmountOut record res hrec h
    simp only [JoinPoolWithExternAmountIn, hrec] at h
    split at h
    · exact Except.noConfusion h
    · rename_i hcap
      rw [not_lt] at hcap
      exact ⟨hcap, half_cap hcap⟩
  · intro pm extOk pool tokenIn poolAmountOut maxAmountIn record res a hrec h hcoins
    simp only [JoinPoolWithPoolAmountOut, hrec] at h
    split at h
    · exact Except.noConfusion h
    · split at h
      · exact Except.noConfusion h
      · split at h
        · exact Except.noConfusion h
        · rename_i hcap
          rw [not_lt] at hcap
          split at h
          · exact Except.noConfusion h
          · rename_i r0 heq
            have hr0 := joinPool_ok _ _ _ _ _ heq
            subst hr0
            simp only [Except.ok.injEq] at h
            subst h
            simp only [List.cons.injEq, Prod.mk.injEq, and_true, true_and] at hcoins
            rw [← hcoins]
            exact ⟨hcap, half_cap hcap⟩
  · intro pm extOk pool tokenOut poolAmountIn minAmountOut record res a hrec h hcoins
    simp only [ExitPoolWithPoolAmountIn, hrec] at h
    split at h
    · exact Except.noConfusion h
    · split at h
      · exact Except.noConfusion h
      · rename_i hcap
        rw [not_lt] at hcap
        split at h
        · exact Except.noConfusion h
        · rename_i r0 heq
          have hr0 := exitPool_ok _ _ _ _ _ heq
          subst hr0
          simp only [Except.ok.injEq] at h
          subst h
          simp only [List.cons.injEq, Prod.mk.injEq, and_true, true_and] at hcoins
          rw [← hcoins]
          exact ⟨hcap, fun hb => third_cap hb hcap⟩
  · intro pm extOk pool tokenOut tokenAmountOut maxPoolAmountIn record res hrec h
    simp only [ExitPoolWithExternAmountOut, hrec] at h
    split at h
    · exact Except.noConfusion h
    · rename_i hcap
      rw [not_lt] at hcap
      exact ⟨hcap, fun hb => third_cap hb hcap⟩
  · intro pm extOk pool tokenIn tokenAmountIn minPoolAmountOut record hrec hlt
    simp only [JoinPoolWithExternAmountIn, hrec]
    rw [if_pos hlt]
  · intro pm extOk pool tokenOut tokenAmountOut maxPoolAmountIn record hrec hlt
    simp only [ExitPoolWithExternAmountOut, hrec]
    rw [if_pos hlt]
  · intro pm extOk pool tokenIn poolAmountOut maxAmountIn record hrec hne hle hlt
    simp only [JoinPoolWithPoolAmountOut, hrec]
    rw [if_neg hne, if_neg (not_lt.mpr hle), if_pos hlt]
  · intro pm extOk pool tokenOut poolAmountIn minAmountOut record hrec hmin hlt
    simp only [ExitPoolWithPoolAmountIn, hrec]
    rw [if_neg (not_lt.mpr hmin), if_pos hlt]

/-- C5 witness: the caps and the cap failures at concrete single-asset joins
and exits on `poolAB`. -/
theorem c5_ratio_caps_witness :
    (intToDec 50 ≤ decMul (intToDec 200) maxInRatio ∧ 2 * 50 ≤ (200 : ℤ)) ∧
    (intToDec 7 ≤ decMul (intToDec 200) maxInRatio ∧ 2 * 7 ≤ (200 : ℤ)) ∧
    (intToDec 7 ≤ decMul (intToDec 200) maxOutRatio ∧
      (0 ≤ (200 : ℤ) → 3 * 7 ≤ (200 : ℤ))) ∧
    (intToDec 60 ≤ decMul (intToDec 200) maxOutRatio ∧
      (0 ≤ (200 : ℤ) → 3 * 60 ≤ (200 : ℤ))) ∧
    JoinPoolWithExternAmountIn pmConst true poolAB "a" 200 0 = .error .maxInRatio ∧
    ExitPoolWithExternAmountOut pmConst true poolAB "a" 100 100 = .error .maxOutRatio ∧
    JoinPoolWithPoolAmountOut pmBig true poolAB "a" 5 2000 = .error .maxInRatio ∧
    ExitPoolWithPoolAmountIn pmBig true poolAB "a" 5 0 = .error .maxOutRatio := by
  obtain ⟨p1, p2, p3, p4, p5, p6, p7, p8⟩ := c5_ratio_caps
  have hrec : recGet poolAB.records "a" = some ⟨10 ^ 18, 200⟩ := rfl
  refine ⟨?_, ?_, ?_, ?_, ?_, ?_, ?_, ?_⟩
  · exact p1 pmConst true poolAB "a" 50 0 ⟨10 ^ 18, 200⟩ jextRes hrec rfl
  · exact p2 pmConst true poolAB "a" 3 100 ⟨10 ^ 18, 200⟩ jp2Res 7 hrec rfl rfl
  · exact p3 pmConst true poolAB "a" 5 0 ⟨10 ^ 18, 200⟩ ep1Res 7 hrec rfl rfl
  · exact p4 pmConst true poolAB "a" 60 100 ⟨10 ^ 18, 200⟩ ep2Res hrec rfl
  · exact p5 pmConst true poolAB "a" 200 0 ⟨10 ^ 18, 200⟩ hrec (by decide)
  · exact p6 pmConst true poolAB "a" 100 100 ⟨10 ^ 18, 200⟩ hrec (by decide)
  · exact p7 pmBig true poolAB "a" 5 2000 ⟨10 ^ 18, 200⟩ hrec (by decide) (by decide)
      (by decide)
  · exact p8 pmBig true poolAB "a" 5 0 ⟨10 ^ 18, 200⟩ hrec (by decide) (by decide)

end Gamm
